import Mathlib

/-!
# Verification of the unified-ai-orchestrator core against its specification

Shallow embedding, in Lean 4, of the parts of the `unified_ai` Python package
that the specification's testable properties talk about:

* `router.py` — keyword classification and tool selection;
* `context_manager.py` — the Python fallback compressor and window manager;
* `resilience/circuit_breaker.py` and `resilience/retry.py`;
* `migrations/sqlite.py` — the migration runner's version bookkeeping;
* `storage/sqlite.py` — user / API-key lookup, user creation, message queries;
* `api/auth_routes.py` — the user-create route's conflict handling.

Python strings are modelled as `List Char`, integers as `Int`/`Nat` (Python
integers are unbounded, so no wrap-around modelling is needed), wall-clock
instants as `Int`, and fallible calls as `Except`/`Option` results.  Each
definition mirrors one Python function and is named after it.
-/

namespace UnifiedAI

/-- Propositional equality on `Except` results is decidable whenever it is
on both components (used to evaluate concrete runs of the embedded
functions). -/
instance {ε α : Type} [DecidableEq ε] [DecidableEq α] : DecidableEq (Except ε α) :=
  fun x y =>
    match x, y with
    | .ok a, .ok b => decidable_of_iff (a = b) (by simp)
    | .error a, .error b => decidable_of_iff (a = b) (by simp)
    | .ok _, .error _ => isFalse (by simp)
    | .error _, .ok _ => isFalse (by simp)

/-! ## String machinery

Python's `in` operator on strings is substring containment and `str.lower`
lower-cases each character; both are modelled on `List Char`. -/

/-- `leadsWith n h`: the list `n` is an initial segment of `h`
(Python `h.startswith(n)`). -/
def leadsWith : List Char → List Char → Bool
  | [], _ => true
  | _ :: _, [] => false
  | a :: as, b :: bs => a == b && leadsWith as bs

/-- `hasSub n h`: `n` occurs as a contiguous substring of `h`
(Python `n in h`). -/
def hasSub (n : List Char) : List Char → Bool
  | [] => leadsWith n []
  | c :: t => leadsWith n (c :: t) || hasSub n t

/-- Python `str.lower()` (the source only ever lower-cases ASCII text). -/
def lowerChars (s : List Char) : List Char := s.map Char.toLower

/-! ## Data model: messages and conversation contexts (`context_manager.py`) -/

/-- `Message` dataclass of `context_manager.py`. -/
structure Msg where
  role : String
  content : List Char
  timestamp : Int
deriving DecidableEq, Repr

/-- `Context` dataclass of `context_manager.py`; `codebase_context` and
`tool_history` are carried opaquely (the functions under study never touch
their contents). -/
structure Context where
  conversation_id : String
  project_id : Option String
  messages : List Msg
  codebase_context : Option String
  tool_history : List String
deriving DecidableEq, Repr

/-! ## Router (`router.py`) -/

namespace Router

/-- `code_keywords` of `Router._analyze_request`. -/
def code_keywords : List (List Char) :=
  ["refactor", "edit", "fix", "bug", "function", "class", "import",
   "code", "file", "module", "package", "syntax", "error", "compile",
   "test", "debug", "implement", "rewrite", "optimize"].map String.toList

/-- `research_keywords` of `Router._analyze_request`. -/
def research_keywords : List (List Char) :=
  ["research", "find", "search", "what is", "explain", "how does",
   "information", "article", "paper", "source", "citation", "reference",
   "learn about", "tell me about", "investigate"].map String.toList

/-- `terminal_keywords` of `Router._analyze_request`. -/
def terminal_keywords : List (List Char) :=
  ["run", "execute", "command", "terminal", "shell", "script",
   "automate", "workflow", "cli", "bash", "zsh"].map String.toList

/-- `generation_keywords` of `Router._analyze_request`. -/
def generation_keywords : List (List Char) :=
  ["generate", "create", "write", "make", "build", "new",
   "scaffold", "boilerplate", "template"].map String.toList

/-- `Router._analyze_request`: lower-case the message, then test the four
keyword buckets in the order they appear in the source: code keywords,
research keywords, terminal keywords, and finally generation keywords
(which also classify as `"code_editing"`). -/
def analyze_request (message : List Char) : String :=
  let lower := lowerChars message
  if code_keywords.any (fun kw => hasSub kw lower) then "code_editing"
  else if research_keywords.any (fun kw => hasSub kw lower) then "research"
  else if terminal_keywords.any (fun kw => hasSub kw lower) then "terminal_automation"
  else if generation_keywords.any (fun kw => hasSub kw lower) then "code_editing"
  else "general_chat"

/-- `Router._select_tools`: map the task type through the literal
`rule_key` dictionary (default `"general_chat"`) and look the key up in
`routing_rules` (a Python dict, modelled as `String → Option (List String)`),
falling back to `[default_tool]`. -/
def select_tools (routing_rules : String → Option (List String))
    (default_tool : String) (task_type : String) : List String :=
  let rule_key :=
    if task_type = "code_editing" then "code_editing"
    else if task_type = "research" then "research"
    else if task_type = "terminal_automation" then "general_chat"
    else if task_type = "general_chat" then "general_chat"
    else "general_chat"
  (routing_rules rule_key).getD [default_tool]

/-- `Router.route`, projected onto its `selected_tools` field (the
`reasoning` string is presentational only). -/
def route (routing_rules : String → Option (List String)) (default_tool : String)
    (message : List Char) (explicit_tool : Option String) : List String :=
  match explicit_tool with
  | some t => [t]
  | none => select_tools routing_rules default_tool (analyze_request message)

end Router

/-! ## Context compression (`ContextManager._compress_python`) -/

namespace ContextManager

/-- The literal truncation marker inserted by `_compress_python`. -/
def truncMarker : List Char := "... [truncated] ...".toList

/-- The per-message truncation of `_compress_python`:
`content[:1000] + "... [truncated] ..." + content[-1000:]` for contents
longer than 2000 characters. -/
def truncContent (c : List Char) : List Char :=
  if 2000 < c.length then c.take 1000 ++ truncMarker ++ c.drop (c.length - 1000)
  else c

/-- A message with `truncContent` applied. -/
def truncMsg (m : Msg) : Msg := { m with content := truncContent m.content }

/-- The keep/drop phase of `_compress_python` without truncation: a message
is kept iff it is the first one or its content differs from the content of
the message at the previous index of the ORIGINAL list (`i == 0 or
msg.content != context.messages[i-1].content`); the role is not consulted. -/
def dedupeGo : Option (List Char) → List Msg → List Msg
  | _, [] => []
  | none, m :: rest => m :: dedupeGo (some m.content) rest
  | some p, m :: rest =>
      if m.content = p then dedupeGo (some m.content) rest
      else m :: dedupeGo (some m.content) rest

/-- The loop body of `_compress_python`, one pass: keep/drop against the
previous original message, truncating each kept message. -/
def compressGo : Option (List Char) → List Msg → List Msg
  | _, [] => []
  | none, m :: rest => truncMsg m :: compressGo (some m.content) rest
  | some p, m :: rest =>
      if m.content = p then compressGo (some m.content) rest
      else truncMsg m :: compressGo (some m.content) rest

/-- `ContextManager._compress_python`. -/
def compress_python (ctx : Context) : Context :=
  { ctx with messages := compressGo none ctx.messages }

/-! ## Window management (`ContextManager._manage_window_python`) -/

/-- The literal `model_windows` table with its `.get(model, 4096)` default. -/
def model_windows (model : String) : Int :=
  if model = "gpt-4" then 8192
  else if model = "gpt-3.5-turbo" then 4096
  else if model = "claude-3-5-sonnet-20241022" then 200000
  else if model = "claude-3-opus" then 200000
  else if model = "claude-3-sonnet" then 200000
  else if model = "claude-3-haiku" then 200000
  else 4096

/-- Python `list.insert(i, a)` (the index is clamped into range, which
`take`/`drop` do for free). -/
def pyInsert (i : Nat) (a : α) (l : List α) : List α :=
  l.take i ++ a :: l.drop i

/-- `len([m for m in kept_messages if m.role == "system"])`. -/
def sysCount (l : List Msg) : Nat :=
  (l.filter (fun m => m.role = "system")).length

/-- Per-message token estimate `len(msg.content) // 4`. -/
def msgTokens (m : Msg) : Nat := m.content.length / 4

/-- One iteration of the first trimming loop, threading
`(kept_messages, token_count)`: a system message is appended when it still
fits the budget. -/
def sysStep (avail : Int) (st : List Msg × Nat) (m : Msg) : List Msg × Nat :=
  if m.role = "system" then
    if (st.2 + msgTokens m : Int) ≤ avail then (st.1 ++ [m], st.2 + msgTokens m)
    else st
  else st

/-- First loop of the trimming branch: walk the messages in order and append
each system message that still fits the budget. -/
def sysPass (avail : Int) (msgs : List Msg) : List Msg × Nat :=
  msgs.foldl (sysStep avail) ([], 0)

/-- Second loop of the trimming branch: walk the messages newest-first
(`reversed(...)`), skip system messages, and insert each fitting non-system
message at index `sysCount kept`; the first non-fitting message breaks the
loop. -/
def recentPass (avail : Int) : List Msg → List Msg × Nat → List Msg × Nat
  | [], st => st
  | m :: rest, st =>
      if m.role = "system" then recentPass avail rest st
      else if (st.2 + msgTokens m : Int) ≤ avail then
        recentPass avail rest (pyInsert (sysCount st.1) m st.1, st.2 + msgTokens m)
      else st

/-- Context-level token estimate of `_manage_window_python`:
`sum(len(msg.content) for msg in messages) // 4`. -/
def estimatedTokens (msgs : List Msg) : Nat :=
  (msgs.map (fun m => m.content.length)).sum / 4

/-- Sum of the per-message estimates `len(content) // 4` — the quantity the
trimming loops actually budget with.  Because `//` rounds down, this can be
strictly smaller than `estimatedTokens`. -/
def sumTokens (msgs : List Msg) : Nat := (msgs.map msgTokens).sum

/-- `ContextManager._manage_window_python`.  Returns the context unchanged
when the estimate fits `window - reserved`; otherwise runs the two loops
above and finally reverses the accumulated list (`kept_messages.reverse()`). -/
def manage_window_python (ctx : Context) (model : String) (reserved_tokens : Int) :
    Context :=
  let window_size := model_windows model
  let available_tokens := window_size - reserved_tokens
  if (estimatedTokens ctx.messages : Int) ≤ available_tokens then ctx
  else
    let st := sysPass available_tokens ctx.messages
    let st2 := recentPass available_tokens ctx.messages.reverse st
    { ctx with messages := st2.1.reverse }

end ContextManager

/-! ## Circuit breaker (`resilience/circuit_breaker.py`)

Wall-clock instants (`time.time()`) are modelled as integers (in arbitrary
subdivisions of a second; the breaker only ever compares instants and
differences, so the grain is irrelevant).  A call is
modelled by the instant at which it happens and the outcome the wrapped
operation would produce; `call` additionally reports whether the wrapped
operation was actually invoked. -/

namespace Resilience

/-- `CircuitState` enum. -/
inductive CircuitState where
  | closed
  | opn
  | halfOpen
deriving DecidableEq, Repr

/-- The mutable fields of the `CircuitBreaker` dataclass. -/
structure CircuitBreaker where
  name : String
  failure_threshold : Nat
  success_threshold : Nat
  timeout : Int
  state : CircuitState
  failures : Nat
  successes : Nat
  last_failure_time : Option Int
deriving DecidableEq, Repr

/-- A freshly constructed breaker: `CLOSED`, zero counters, no failure time. -/
def mkBreaker (name : String) (failure_threshold success_threshold : Nat)
    (timeout : Int) : CircuitBreaker :=
  ⟨name, failure_threshold, success_threshold, timeout, .closed, 0, 0, none⟩

/-- Python truthiness of `self._last_failure_time` (`None` and `0.0` are
falsy). -/
def truthyTime : Option Int → Bool
  | none => false
  | some t => t ≠ 0

/-- `CircuitBreaker._check_state` at instant `now`: an `OPEN` breaker whose
recorded failure time is truthy and whose timeout has elapsed becomes
`HALF_OPEN` with the success counter reset. -/
def check_state (b : CircuitBreaker) (now : Int) : CircuitBreaker :=
  if b.state = .opn ∧ truthyTime b.last_failure_time then
    if b.timeout ≤ now - (b.last_failure_time.getD 0) then
      { b with state := .halfOpen, successes := 0 }
    else b
  else b

/-- `CircuitBreaker._on_success`. -/
def on_success (b : CircuitBreaker) : CircuitBreaker :=
  let b := { b with failures := 0 }
  if b.state = .halfOpen then
    let b := { b with successes := b.successes + 1 }
    if b.success_threshold ≤ b.successes then
      { b with state := .closed, successes := 0 }
    else b
  else b

/-- `CircuitBreaker._on_failure` at instant `now`. -/
def on_failure (b : CircuitBreaker) (now : Int) : CircuitBreaker :=
  let b := { b with failures := b.failures + 1, last_failure_time := some now }
  if b.state = .halfOpen then { b with state := .opn }
  else if b.state = .closed then
    if b.failure_threshold ≤ b.failures then { b with state := .opn } else b
  else b

/-- Outcome of `CircuitBreaker.call`. -/
inductive CallResult (α ε : Type) where
  | circuitOpen
  | succeeded (v : α)
  | failed (e : ε)
deriving DecidableEq, Repr

/-- `CircuitBreaker.call` at instant `now`, where `op` is the outcome the
wrapped operation would produce if invoked.  The third component records
whether the wrapped operation was invoked. -/
def call (b : CircuitBreaker) (now : Int) (op : Except ε α) :
    CallResult α ε × CircuitBreaker × Bool :=
  if (check_state b now).state = .opn then (.circuitOpen, check_state b now, false)
  else
    match op with
    | .ok v => (.succeeded v, on_success (check_state b now), true)
    | .error e => (.failed e, on_failure (check_state b now) now, true)

/-- One failed call at instant `t` (the wrapped operation raises). -/
def recordFailedCall (b : CircuitBreaker) (t : Int) : CircuitBreaker :=
  (@call Unit Unit b t (Except.error ())).2.1

/-- A sequence of failed calls at the given instants. -/
def afterFailures (b : CircuitBreaker) (ts : List Int) : CircuitBreaker :=
  ts.foldl recordFailedCall b

/-! ## Retry (`resilience/retry.py`)

Python exceptions are identified by their class name (`type(error).__name__`,
a string); an operation is a map from the attempt index to the outcome it
produces on that invocation.  Back-off sleeping has no observable effect
beyond happening, so the wrapper counts sleeps instead of performing them. -/

/-- The literal `retryable_errors` list of `RetryPolicy.should_retry`. -/
def retryable_errors : List (List Char) :=
  ["ConnectionError", "TimeoutError", "RateLimitError", "HTTPError"].map String.toList

/-- `any(err in error_type for err in retryable_errors)`. -/
def isRetryableName (error_type : List Char) : Bool :=
  retryable_errors.any (fun err => hasSub err error_type)

/-- `RetryPolicy.should_retry(attempt, error)` (only `max_attempts` and the
error's class name are consulted). -/
def should_retry (max_attempts attempt : Nat) (error_type : List Char) : Bool :=
  if max_attempts ≤ attempt then false
  else isRetryableName error_type

/-- What the `retry` wrapper ultimately does: return a value, re-raise an
exception from the operation, or raise the `None` placeholder (only
reachable when `max_attempts = 0`). -/
inductive RetryResult (α : Type) where
  | ok (v : α)
  | raised (e : List Char)
  | raisedNone
deriving DecidableEq, Repr

/-- The `while attempt < policy.max_attempts` loop of the `retry` wrapper.
`fuel` equals `max_attempts - attempt` and only drives termination; the
state `(attempt, last_error, invocations, sleeps)` mirrors the Python
locals, with `invocations` counting calls of the wrapped function and
`sleeps` counting executed `asyncio.sleep`s. -/
def retryLoop (max_attempts : Nat) (op : Nat → Except (List Char) α) :
    Nat → Nat → Option (List Char) → Nat → Nat → RetryResult α × Nat × Nat
  | 0, _, last_error, inv, sl =>
      ((match last_error with
        | none => RetryResult.raisedNone
        | some e => RetryResult.raised e), inv, sl)
  | fuel + 1, attempt, _, inv, sl =>
      match op attempt with
      | .ok v => (.ok v, inv + 1, sl)
      | .error e =>
          if should_retry max_attempts (attempt + 1) e then
            retryLoop max_attempts op fuel (attempt + 1) (some e) (inv + 1) (sl + 1)
          else (.raised e, inv + 1, sl)

/-- The `retry(policy)(func)` wrapper applied to one call: run the loop from
`attempt = 0` with no recorded error. -/
def retryCall (max_attempts : Nat) (op : Nat → Except (List Char) α) :
    RetryResult α × Nat × Nat :=
  retryLoop max_attempts op max_attempts 0 none 0 0

end Resilience

/-! ## Migration runner (`migrations/sqlite.py`)

The `schema_migrations` table is modelled as the list of applied version
numbers in row order; a registered migration carries its version and a flag
saying whether its up- (resp. down-) SQL executes without error.  Each
migration runs in its own transaction, so an SQL failure leaves the rows of
the earlier migrations of the same run committed. -/

namespace Migrations

/-- One registered migration (`{"version": ..., "name": ..., "up_sql": ...,
"down_sql": ...}`); the SQL strings are abstracted to whether they execute
successfully. -/
structure Migration where
  version : Nat
  name : String
  upOk : Bool
  downOk : Bool
deriving DecidableEq, Repr

/-- `SQLiteMigrationRunner.get_current_version`:
`SELECT MAX(version) FROM schema_migrations`, then
`int(row[0]) if row and row[0] else None` — both an empty table and a
maximum of `0` yield `None` (Python truthiness). -/
def get_current_version (applied : List Nat) : Option Nat :=
  let m := applied.foldl max 0
  if m = 0 then none else some m

/-- The `for migration in self.migrations` loop of `migrate_up`.  `applied0`
is the dict of already-applied versions read once before the loop; `db` is
the table contents, which grow as version rows are inserted.  The result is
the final table plus the error raised, if any. -/
def migrateUpGo (applied0 : List Nat) (target : Nat) :
    List Migration → Option Nat → List Nat → List Nat × Option String
  | [], _, db => (db, none)
  | m :: rest, current, db =>
      if m.version ≤ target then
        if m.version ∈ applied0 then migrateUpGo applied0 target rest current db
        else
          match current with
          | some c =>
              if m.version ≠ c + 1 then
                (db, some "gap: cannot be applied")
              else if m.upOk then
                migrateUpGo applied0 target rest (some m.version) (db ++ [m.version])
              else (db, some "sql error")
          | none =>
              if m.upOk then
                migrateUpGo applied0 target rest (some m.version) (db ++ [m.version])
              else (db, some "sql error")
      else migrateUpGo applied0 target rest current db

/-- `SQLiteMigrationRunner.migrate_up(target_version)`.  The default target
is `target_version or max(versions)` (Python truthiness: `None` and `0`
both fall back to the maximum registered version, or `0` when none are
registered). -/
def migrate_up (migrations : List Migration) (db : List Nat)
    (target_version : Option Nat) : List Nat × Option String :=
  let current := get_current_version db
  let dflt := (migrations.map Migration.version).foldl max 0
  let target :=
    match target_version with
    | none => dflt
    | some t => if t = 0 then dflt else t
  migrateUpGo db target migrations current db

/-- The rollback loop of `migrate_down`: run each migration's down-SQL and
delete its version row, stopping with an error if the SQL fails. -/
def migrateDownGo : List Migration → List Nat → List Nat × Option String
  | [], db => (db, none)
  | m :: rest, db =>
      if m.downOk then migrateDownGo rest (db.filter (fun v => v ≠ m.version))
      else (db, some "sql error")

/-- `SQLiteMigrationRunner.migrate_down(target_version)`: refuse when no
migration is applied, else roll back every registered migration with
`target < version ≤ current`, newest first. -/
def migrate_down (migrations : List Migration) (db : List Nat)
    (target_version : Nat) : List Nat × Option String :=
  match get_current_version db with
  | none => (db, some "No migrations to rollback")
  | some current =>
      let toRollback := migrations.reverse.filter
        (fun m => decide (target_version < m.version) && decide (m.version ≤ current))
      migrateDownGo toRollback db

end Migrations

/-! ## SQLite storage: users, API keys, messages (`storage/sqlite.py`)

Tables are modelled as lists of rows in row order; `fetchone` of an
unordered query returns the first matching row in that order.  SQLite
compares the `INTEGER`-affinity column `expires_at` with
`strftime('%s','now')` numerically, so `now` is an integer parameter. -/

namespace Storage

/-- A row of the `users` table (the timestamp columns are not consulted by
the functions under study). -/
structure UserRow where
  id : String
  username : String
  email : Option String
  password_hash : Option String
  role : String
  api_key_hash : Option String
deriving DecidableEq, Repr

/-- A row of the `api_keys` table. -/
structure ApiKeyRow where
  id : String
  user_id : String
  key_hash : String
  name : Option String
  expires_at : Option Int
  created_at : Int
  revoked_at : Option Int
deriving DecidableEq, Repr

/-- The user/API-key portion of the database. -/
structure AuthDB where
  users : List UserRow
  api_keys : List ApiKeyRow
deriving DecidableEq, Repr

/-- The projection returned by `get_user_by_api_key_hash`. -/
structure UserOut where
  user_id : String
  username : String
  email : Option String
  role : String
deriving DecidableEq, Repr

/-- The `WHERE` condition of the second query of `get_user_by_api_key_hash`:
`ak.key_hash = ? AND ak.revoked_at IS NULL AND (ak.expires_at IS NULL OR
ak.expires_at > strftime('%s','now'))`. -/
def keyRowLive (h : String) (now : Int) (ak : ApiKeyRow) : Bool :=
  ak.key_hash = h && ak.revoked_at = none &&
    (match ak.expires_at with
     | none => true
     | some e => decide (now < e))

/-- `SQLiteStorage.get_user_by_api_key_hash`: first the legacy query
`SELECT ... FROM users WHERE api_key_hash = ?` (no revocation or expiry
condition — the column has none); only if that finds nothing, the join of
`users` with live `api_keys` rows.  `fetchone` on the join is modelled as
the first user in row order having a live matching key. -/
def get_user_by_api_key_hash (db : AuthDB) (h : String) (now : Int) :
    Option UserOut :=
  match db.users.find? (fun u => u.api_key_hash = some h) with
  | some u => some ⟨u.id, u.username, u.email, u.role⟩
  | none =>
      match db.users.find?
          (fun u => db.api_keys.any (fun ak => keyRowLive h now ak && decide (ak.user_id = u.id))) with
      | some u => some ⟨u.id, u.username, u.email, u.role⟩
      | none => none

/-- `SQLiteStorage.create_user`: `INSERT OR REPLACE INTO users (id,
username, email, password_hash, role, updated_at) VALUES (...)`.  `REPLACE`
deletes every row that conflicts with the new row on a uniqueness
constraint — primary key `id`, `UNIQUE` `username`, `UNIQUE` `email`
(`NULL`s never conflict) — and inserts the new row, whose unlisted
`api_key_hash` column gets its default `NULL`. -/
def create_user (users : List UserRow) (user_id username : String)
    (email password_hash : Option String) (role : String) : List UserRow :=
  users.filter
      (fun u =>
        u.id ≠ user_id && u.username ≠ username &&
          (match email, u.email with
           | some e, some e' => decide (e ≠ e')
           | _, _ => true))
    ++ [⟨user_id, username, email, password_hash, role, none⟩]

end Storage

/-! ## Auth service and user-create route (`security/auth.py`,
`api/auth_routes.py`) -/

namespace Auth

/-- Modelled from the spec: `hash_password` is bcrypt, an external
primitive; it is abstracted to an injective tagging function (none of the
verified properties depend on its value). -/
def hash_password (password : String) : String := "bcrypt$" ++ password

/-- `security.auth.create_user`: hash the password when it is truthy
(Python: `hash_password(password) if password else None`) and call the
storage layer's `create_user` with a fresh id; no username check is made
at this layer.  The fresh `uuid4` is a parameter. -/
def service_create_user (users : List Storage.UserRow) (fresh_id username : String)
    (email : Option String) (password : Option String) (role : String) :
    List Storage.UserRow :=
  let password_hash :=
    match password with
    | none => none
    | some p => if p = "" then none else some (hash_password p)
  Storage.create_user users fresh_id username email password_hash role

/-- Errors raised by the user-create route. -/
inductive RouteError where
  | conflict409
deriving DecidableEq, Repr

/-- `auth_routes.create_user` (the `POST /auth/users` handler): look the
username up first and answer 409 Conflict without touching storage when it
exists; otherwise create the user through `security.auth.create_user`.
Returns the resulting users table together with the outcome. -/
def route_create_user (users : List Storage.UserRow) (fresh_id username : String)
    (email : Option String) (password : Option String) (role : String) :
    List Storage.UserRow × Except RouteError Storage.UserOut :=
  match users.find? (fun u => u.username = username) with
  | some _ => (users, .error .conflict409)
  | none =>
      (service_create_user users fresh_id username email password role,
       .ok ⟨fresh_id, username, email, role⟩)

end Auth

/-! ## Message queries (`SQLiteStorage.get_messages`) -/

namespace Storage

/-- A row of the `messages` table. -/
structure MessageRow where
  id : Nat
  conversation_id : String
  role : String
  content : List Char
  timestamp : Int
deriving DecidableEq, Repr

/-- Python truthiness of the `limit` argument (`None` and `0` are falsy,
every other integer — including negative ones — is truthy). -/
def truthyLimit : Option Int → Bool
  | none => false
  | some n => n ≠ 0

/-- The SQL text executed by `get_messages`, clause by clause: the truthy
branch ends in `LIMIT ? OFFSET ?`, the falsy branch in a bare `OFFSET ?`. -/
def getMessagesQuery (limit : Option Int) : List String :=
  if truthyLimit limit then
    ["SELECT id, role, content, timestamp", "FROM messages",
     "WHERE conversation_id = ?", "ORDER BY timestamp ASC", "LIMIT ? OFFSET ?"]
  else
    ["SELECT id, role, content, timestamp", "FROM messages",
     "WHERE conversation_id = ?", "ORDER BY timestamp ASC", "OFFSET ?"]

/-- Modelled from the SQLite grammar (an external dependency): in a
`SELECT` statement an `OFFSET` may only appear inside a `LIMIT` clause
(`LIMIT expr OFFSET expr`); a bare `OFFSET` is a syntax error.  The check
runs clause by clause over the query text. -/
def sqliteAccepts (clauses : List String) : Bool :=
  clauses.all (fun c => !(hasSub "OFFSET".toList c.toList) || hasSub "LIMIT".toList c.toList)

/-- Modelled from the SQLite semantics of `LIMIT n OFFSET k` (external
dependency): a negative offset is treated as `0`; a negative limit means
"no limit". -/
def applyLimitOffset (limit offset : Int) (rows : List MessageRow) : List MessageRow :=
  let dropped := rows.drop offset.toNat
  if limit < 0 then dropped else dropped.take limit.toNat

/-- Ascending insertion sort by timestamp (`ORDER BY timestamp ASC`,
stable). -/
def sortByTimestamp (rows : List MessageRow) : List MessageRow :=
  rows.foldr (fun r acc => acc.orderedInsert (fun a b => a.timestamp ≤ b.timestamp) r)
    []

/-- `SQLiteStorage.get_messages(conversation_id, limit, offset)`: build the
query of `getMessagesQuery`; if SQLite rejects it, the call raises; else
the matching rows, ordered by timestamp, windowed by limit/offset. -/
def get_messages (table : List MessageRow) (conversation_id : String)
    (limit : Option Int) (offset : Int) : Except String (List MessageRow) :=
  if sqliteAccepts (getMessagesQuery limit) then
    let rows := sortByTimestamp (table.filter (fun r => r.conversation_id = conversation_id))
    match limit with
    | some n => .ok (applyLimitOffset n offset rows)
    | none => .ok (rows.drop offset.toNat)
  else .error "syntax error: OFFSET without LIMIT"

end Storage

/-! ## Concrete instances used to evaluate the embedded functions -/

namespace Fixtures

/-- Five three-character user messages: each contributes `3 // 4 = 0` to the
loop budget while the context-level estimate is `15 // 4 = 3`. -/
def tinyMsgsCtx : Context :=
  ⟨"c", none,
    [⟨"user", "abc".toList, 0⟩, ⟨"user", "abc".toList, 1⟩, ⟨"user", "abc".toList, 2⟩,
     ⟨"user", "abc".toList, 3⟩, ⟨"user", "abc".toList, 4⟩], none, []⟩

/-- A system message followed by three user messages, eight characters
each. -/
def sysM : Msg := ⟨"system", List.replicate 8 's', 0⟩

/-- First user message of the window-order scenario. -/
def userM1 : Msg := ⟨"user", List.replicate 8 'a', 1⟩

/-- Second user message of the window-order scenario. -/
def userM2 : Msg := ⟨"user", List.replicate 8 'b', 2⟩

/-- Third user message of the window-order scenario. -/
def userM3 : Msg := ⟨"user", List.replicate 8 'c', 3⟩

/-- The window-order scenario context: chronologically
`[sysM, userM1, userM2, userM3]`. -/
def orderCtx : Context := ⟨"c", none, [sysM, userM1, userM2, userM3], none, []⟩

/-- Two messages with equal content and different roles. -/
def dupRolesCtx : Context :=
  ⟨"c", none, [⟨"user", "hi".toList, 0⟩, ⟨"assistant", "hi".toList, 1⟩], none, []⟩

/-- A routing-rule table with distinct lists per class. -/
def rules0 : String → Option (List String) :=
  fun k =>
    if k = "code_editing" then some ["claude", "gpt"]
    else if k = "research" then some ["perplexity"]
    else if k = "general_chat" then some ["gpt"]
    else none

/-- A registered migration whose SQL always succeeds. -/
def okMig (v : Nat) : Migrations.Migration := ⟨v, "m", true, true⟩

/-- A user row carrying the presented hash in the legacy
`users.api_key_hash` column. -/
def legacyU : Storage.UserRow := ⟨"u1", "alice", none, none, "user", some "H"⟩

/-- An `api_keys` row for the same hash, revoked at time 100. -/
def revokedK : Storage.ApiKeyRow := ⟨"k1", "u1", "H", none, none, 0, some 100⟩

/-- A user row without a legacy hash. -/
def plainU : Storage.UserRow := ⟨"u1", "alice", none, none, "user", none⟩

/-- A live key for `plainU`: not revoked, expiring at time 10. -/
def liveK : Storage.ApiKeyRow := ⟨"k1", "u1", "H", none, some 10, 0, none⟩

/-- An existing admin user named `alice` with email, password hash and a
primary API-key hash. -/
def adminU : Storage.UserRow :=
  ⟨"u1", "alice", some "alice@example.com", some "pw-hash", "admin", some "K"⟩

/-- One stored message row. -/
def msgRow1 : Storage.MessageRow := ⟨1, "c", "user", "hi".toList, 0⟩

end Fixtures

/-! ## Helper lemmas for the compressor -/

namespace ContextManager

lemma compressGo_eq_map (l : List Msg) :
    ∀ prev, compressGo prev l = (dedupeGo prev l).map truncMsg := by
  induction l with
  | nil => intro prev; cases prev <;> rfl
  | cons m rest ih =>
      intro prev
      cases prev with
      | none => simp [compressGo, dedupeGo, ih]
      | some p =>
          by_cases hc : m.content = p <;> simp [compressGo, dedupeGo, hc, ih]

lemma dedupeGo_head_ne (l : List Msg) :
    ∀ p m, (dedupeGo (some p) l).head? = some m → m.content ≠ p := by
  induction l with
  | nil => intro p m hm; simp [dedupeGo] at hm
  | cons m' rest ih =>
      intro p m hm
      by_cases hc : m'.content = p
      · rw [dedupeGo, if_pos hc] at hm
        have := ih m'.content m hm
        rwa [hc] at this
      · rw [dedupeGo, if_neg hc] at hm
        simp at hm
        rwa [← hm]

lemma dedupeGo_chain (l : List Msg) :
    ∀ prev, List.Chain' (fun a b => a.content ≠ b.content) (dedupeGo prev l) := by
  induction l with
  | nil => intro prev; cases prev <;> simp [dedupeGo]
  | cons m rest ih =>
      intro prev
      have hkeep : List.Chain' (fun a b => a.content ≠ b.content)
          (m :: dedupeGo (some m.content) rest) := by
        rw [List.chain'_cons']
        refine ⟨fun y hy => ?_, ih (some m.content)⟩
        exact fun hcontra => dedupeGo_head_ne rest m.content y hy (hcontra ▸ rfl)
      cases prev with
      | none => simpa [dedupeGo] using hkeep
      | some p =>
          by_cases hc : m.content = p
          · rw [dedupeGo, if_pos hc]; exact ih (some m.content)
          · rw [dedupeGo, if_neg hc]; exact hkeep

lemma truncContent_length (c : List Char) : (truncContent c).length ≤ 2019 := by
  unfold truncContent
  split
  · next hlen =>
      have hmark : truncMarker.length = 19 := by decide
      simp only [List.length_append, List.length_take, List.length_drop, hmark]
      omega
  · next hlen => omega

/-! ## Helper lemmas for the window manager -/

lemma sumTokens_nil : sumTokens [] = 0 := rfl

lemma sumTokens_cons (m : Msg) (l : List Msg) :
    sumTokens (m :: l) = msgTokens m + sumTokens l := by
  simp [sumTokens]

lemma sumTokens_append (l₁ l₂ : List Msg) :
    sumTokens (l₁ ++ l₂) = sumTokens l₁ + sumTokens l₂ := by
  simp [sumTokens]

lemma sumTokens_reverse (l : List Msg) : sumTokens l.reverse = sumTokens l := by
  simp [sumTokens, List.sum_reverse]

lemma sumTokens_le_estimated (msgs : List Msg) :
    sumTokens msgs ≤ estimatedTokens msgs := by
  induction msgs with
  | nil => simp [sumTokens, estimatedTokens]
  | cons m l ih =>
      have step : m.content.length / 4 + (l.map (fun x => x.content.length)).sum / 4
          ≤ (m.content.length + (l.map (fun x => x.content.length)).sum) / 4 :=
        Nat.add_div_le_add_div _ _ _
      have : sumTokens (m :: l) ≤ m.content.length / 4 + estimatedTokens l := by
        rw [sumTokens_cons]
        exact Nat.add_le_add_left ih _
      calc sumTokens (m :: l) ≤ m.content.length / 4 + estimatedTokens l := this
        _ ≤ estimatedTokens (m :: l) := by
            simpa [estimatedTokens] using step

lemma sumTokens_pyInsert (i : Nat) (m : Msg) (l : List Msg) :
    sumTokens (pyInsert i m l) = msgTokens m + sumTokens l := by
  have h3 : l.take i ++ l.drop i = l := List.take_append_drop i l
  calc sumTokens (pyInsert i m l)
      = sumTokens (l.take i) + (msgTokens m + sumTokens (l.drop i)) := by
        simp [pyInsert, sumTokens_append, sumTokens_cons]
    _ = msgTokens m + sumTokens (l.take i ++ l.drop i) := by
        rw [sumTokens_append]; omega
    _ = msgTokens m + sumTokens l := by rw [h3]

lemma sysStep_inv (avail : Int) (st : List Msg × Nat) (m : Msg)
    (hsum : st.2 = sumTokens st.1) (hle : (st.2 : Int) ≤ avail) :
    (sysStep avail st m).2 = sumTokens (sysStep avail st m).1
      ∧ ((sysStep avail st m).2 : Int) ≤ avail := by
  unfold sysStep
  split
  · split
    · next hfit =>
        exact ⟨by simp [sumTokens_append, sumTokens_cons, sumTokens_nil, hsum],
          by exact_mod_cast hfit⟩
    · exact ⟨hsum, hle⟩
  · exact ⟨hsum, hle⟩

lemma sysPass_fold_inv (avail : Int) (msgs : List Msg) :
    ∀ st : List Msg × Nat, st.2 = sumTokens st.1 → (st.2 : Int) ≤ avail →
      (msgs.foldl (sysStep avail) st).2 = sumTokens (msgs.foldl (sysStep avail) st).1
        ∧ ((msgs.foldl (sysStep avail) st).2 : Int) ≤ avail := by
  induction msgs with
  | nil => intro st hsum hle; exact ⟨hsum, hle⟩
  | cons m rest ih =>
      intro st hsum hle
      have h := sysStep_inv avail st m hsum hle
      exact ih _ h.1 h.2

lemma sysPass_inv (avail : Int) (msgs : List Msg) (h0 : 0 ≤ avail) :
    (sysPass avail msgs).2 = sumTokens (sysPass avail msgs).1
      ∧ ((sysPass avail msgs).2 : Int) ≤ avail :=
  sysPass_fold_inv avail msgs ([], 0) rfl (by exact_mod_cast h0)

lemma recentPass_inv (avail : Int) (msgs : List Msg) :
    ∀ st : List Msg × Nat, st.2 = sumTokens st.1 → (st.2 : Int) ≤ avail →
      (recentPass avail msgs st).2 = sumTokens (recentPass avail msgs st).1
        ∧ ((recentPass avail msgs st).2 : Int) ≤ avail := by
  induction msgs with
  | nil => intro st hsum hle; exact ⟨hsum, hle⟩
  | cons m rest ih =>
      intro st hsum hle
      unfold recentPass
      split
      · exact ih st hsum hle
      · split
        · next hfit =>
            refine ih _ ?_ ?_
            · simp [sumTokens_pyInsert, hsum]; omega
            · exact_mod_cast hfit
        · exact ⟨hsum, hle⟩

end ContextManager

/-! ## Claim C2 — window-fit token budget -/

/-- C2, counterexample.  Five three-character user messages against model
`gpt-4` with `reserved_tokens = 8191` (budget `8192 - 8191 = 1`): the
estimate `15 // 4 = 3` exceeds the budget, the trimming loops charge each
message `3 // 4 = 0` tokens and keep all five, and the returned context
still has context-level estimate `3 > 1`, contradicting the claimed bound
`estimated-tokens(C') ≤ W − R`. -/
theorem c2_window_estimate_cex :
    ContextManager.estimatedTokens
        (ContextManager.manage_window_python Fixtures.tinyMsgsCtx "gpt-4" 8191).messages = 3
      ∧ ¬((3 : Int) ≤ ContextManager.model_windows "gpt-4" - 8191) := by
  constructor
  · decide
  · decide

/-- C2, as amended: window management bounds the SUM OF PER-MESSAGE
estimates `len(content) // 4` by `W − R` (provided the headroom does not
exceed the window); the context-level estimate `total // 4` of the claim
can exceed the bound by rounding, as the counterexample shows. -/
theorem c2_window_budget_amended (ctx : Context) (model : String)
    (reserved_tokens : Int)
    (h : 0 ≤ ContextManager.model_windows model - reserved_tokens) :
    (ContextManager.sumTokens
        (ContextManager.manage_window_python ctx model reserved_tokens).messages : Int)
      ≤ ContextManager.model_windows model - reserved_tokens := by
  unfold ContextManager.manage_window_python
  by_cases hle : (ContextManager.estimatedTokens ctx.messages : Int)
      ≤ ContextManager.model_windows model - reserved_tokens
  · rw [if_pos hle]
    have h1 := ContextManager.sumTokens_le_estimated ctx.messages
    have h2 : (ContextManager.sumTokens ctx.messages : Int)
        ≤ (ContextManager.estimatedTokens ctx.messages : Int) := by exact_mod_cast h1
    exact le_trans h2 hle
  · rw [if_neg hle]
    have hsys := ContextManager.sysPass_inv
      (ContextManager.model_windows model - reserved_tokens) ctx.messages h
    have hrec := ContextManager.recentPass_inv
      (ContextManager.model_windows model - reserved_tokens) ctx.messages.reverse
      _ hsys.1 hsys.2
    rw [ContextManager.sumTokens_reverse, ← hrec.1]
    exact hrec.2

/-- C2, witness: the amended bound evaluated for `tinyMsgsCtx`, `gpt-4`,
`reserved_tokens = 1000`. -/
theorem c2_window_budget_witness :
    (0 ≤ ContextManager.model_windows "gpt-4" - 1000)
      ∧ (ContextManager.sumTokens
          (ContextManager.manage_window_python Fixtures.tinyMsgsCtx "gpt-4" 1000).messages : Int)
        ≤ ContextManager.model_windows "gpt-4" - 1000 :=
  ⟨by decide, c2_window_budget_amended Fixtures.tinyMsgsCtx "gpt-4" 1000 (by decide)⟩

/-! ## Claim C3 — chronological order of the windowed context -/

/-- C3, code bug.  Failing input: `orderCtx` (a system message then three
user messages, eight characters each, chronological), model `"m"`
(window 4096), `reserved_tokens = 4090`.  The trimming loops build the
chronological list `[sysM, userM2, userM3]` — the insert at index
`sysCount` already restores chronological order — and the final
`kept_messages.reverse()` (whose comment claims it produces "correct
chronological order", as does the spec) then flips it: the function
returns `[userM3, userM2, sysM]`, newest first with the system message
last, not the original chronological order. -/
theorem c3_window_order_bug :
    (ContextManager.manage_window_python Fixtures.orderCtx "m" 4090).messages
        = [Fixtures.userM3, Fixtures.userM2, Fixtures.sysM]
      ∧ [Fixtures.userM3, Fixtures.userM2, Fixtures.sysM]
          ≠ [Fixtures.sysM, Fixtures.userM2, Fixtures.userM3] := by
  constructor
  · decide
  · decide

/-! ## Claim C4 — compression -/

/-- C4, counterexample.  Two adjacent messages with equal content `"hi"`
but different roles (`user` then `assistant`): the claim says the second
is kept because its role differs, but `_compress_python` compares contents
only and drops it. -/
theorem c4_role_duplicate_cex :
    (ContextManager.compress_python Fixtures.dupRolesCtx).messages
      = [⟨"user", "hi".toList, 0⟩] := by
  decide

/-- C4, as amended: (1) the kept messages are exactly those whose content
differs from the content of the previous ORIGINAL message — the role is
ignored, so a message whose content equals its predecessor's is dropped
even when the roles differ — and before truncation no two adjacent kept
messages have the same content; (2) each kept message longer than 2000
characters is replaced by `first1000 + "... [truncated] ..." + last1000`,
so no retained content exceeds 2019 (not 2000) characters. -/
theorem c4_compress_amended (ctx : Context) :
    List.Chain' (fun a b => a.content ≠ b.content)
        (ContextManager.dedupeGo none ctx.messages)
      ∧ (ContextManager.compress_python ctx).messages
          = (ContextManager.dedupeGo none ctx.messages).map ContextManager.truncMsg
      ∧ ∀ m ∈ (ContextManager.compress_python ctx).messages, m.content.length ≤ 2019 := by
  refine ⟨ContextManager.dedupeGo_chain ctx.messages none, ?_, ?_⟩
  · simpa [ContextManager.compress_python]
      using ContextManager.compressGo_eq_map ctx.messages none
  · intro m hm
    rw [ContextManager.compress_python] at hm
    simp only [ContextManager.compressGo_eq_map, List.mem_map] at hm
    obtain ⟨m', _, rfl⟩ := hm
    exact ContextManager.truncContent_length m'.content

/-! ## Claim C5 — router keyword order -/

/-- C5, counterexample.  `"write a paper"` contains the generation keyword
`"write"`, which the claim places in the first (`code_editing`) bucket, so
the claim classifies it `code_editing`; the code checks generation
keywords only after the research bucket and returns `"research"`
(keyword `"paper"`). -/
theorem c5_generation_order_cex :
    "write".toList ∈ Router.generation_keywords
      ∧ hasSub "write".toList (lowerChars "write a paper".toList) = true
      ∧ Router.analyze_request "write a paper".toList = "research"
      ∧ "research" ≠ "code_editing" := by
  refine ⟨by decide, by decide, by decide, by decide⟩

/-- C5, as amended: the buckets are checked in the order code_editing
(without the generation keywords), research, terminal_automation, then the
generation keywords (which also yield code_editing).  Consequently a
message that matches a code keyword, or matches a generation keyword while
matching no research and no terminal keyword, selects the `code_editing`
rule list. -/
theorem c5_code_editing_rules_amended (message : List Char)
    (routing_rules : String → Option (List String)) (default_tool : String)
    (h : Router.code_keywords.any (fun kw => hasSub kw (lowerChars message)) = true
       ∨ (Router.research_keywords.any (fun kw => hasSub kw (lowerChars message)) = false
          ∧ Router.terminal_keywords.any (fun kw => hasSub kw (lowerChars message)) = false
          ∧ Router.generation_keywords.any (fun kw => hasSub kw (lowerChars message)) = true)) :
    Router.route routing_rules default_tool message none
      = (routing_rules "code_editing").getD [default_tool] := by
  have hanalyze : Router.analyze_request message = "code_editing" := by
    rcases h with h | ⟨h1, h2, h3⟩
    · simp [Router.analyze_request, h]
    · by_cases hc : Router.code_keywords.any (fun kw => hasSub kw (lowerChars message)) = true
      · simp [Router.analyze_request, hc]
      · simp [Router.analyze_request, hc, h1, h2, h3]
  simp [Router.route, Router.select_tools, hanalyze]

/-- C5, witness: the message `"generate"` (a generation keyword, no
research or terminal keyword) against the concrete rule table `rules0`
selects the `code_editing` list. -/
theorem c5_code_editing_rules_witness :
    Router.route Fixtures.rules0 "gpt" ("generate".toList) none = ["claude", "gpt"] := by
  have h := c5_code_editing_rules_amended ("generate".toList) Fixtures.rules0 "gpt"
    (Or.inr (by refine ⟨by decide, by decide, by decide⟩))
  simpa [Fixtures.rules0] using h

/-! ## Helper lemmas for the circuit breaker -/

namespace Resilience

lemma afterFailures_cons (b : CircuitBreaker) (t : Int) (ts : List Int) :
    afterFailures b (t :: ts) = afterFailures (recordFailedCall b t) ts := rfl

lemma afterFailures_append (b : CircuitBreaker) (ts : List Int) (t : Int) :
    afterFailures b (ts ++ [t]) = recordFailedCall (afterFailures b ts) t := by
  simp [afterFailures, List.foldl_append]

lemma check_state_not_open (b : CircuitBreaker) (now : Int) (h : b.state ≠ .opn) :
    check_state b now = b := by
  unfold check_state
  rw [if_neg]
  rintro ⟨h1, -⟩
  exact h h1

lemma recordFailedCall_closed (b : CircuitBreaker) (t : Int) (hst : b.state = .closed) :
    recordFailedCall b t =
      if b.failure_threshold ≤ b.failures + 1 then
        { b with state := .opn, failures := b.failures + 1, last_failure_time := some t }
      else
        { b with failures := b.failures + 1, last_failure_time := some t } := by
  have hcs : check_state b t = b := check_state_not_open b t (by simp [hst])
  unfold recordFailedCall call
  rw [hcs]
  rw [if_neg (show ¬b.state = CircuitState.opn by simp [hst])]
  show on_failure b t = _
  unfold on_failure
  have h1 : ({ b with failures := b.failures + 1, last_failure_time := some t } : CircuitBreaker).state = .closed := by
    simpa using hst
  rw [if_neg (by rw [h1]; simp), if_pos h1]

lemma afterFailures_closed (ts : List Int) :
    ∀ b : CircuitBreaker, b.state = .closed →
      b.failures + ts.length < b.failure_threshold →
      ∃ lt, afterFailures b ts =
        { b with failures := b.failures + ts.length, last_failure_time := lt } := by
  induction ts with
  | nil =>
      intro b hst hlt
      exact ⟨b.last_failure_time, by simp [afterFailures]⟩
  | cons t ts ih =>
      intro b hst hlt
      rw [afterFailures_cons, recordFailedCall_closed b t hst]
      rw [if_neg (by simp at hlt; omega)]
      obtain ⟨lt, hlt'⟩ := ih { b with failures := b.failures + 1, last_failure_time := some t }
        (by simpa using hst) (by simp at hlt ⊢; omega)
      refine ⟨lt, ?_⟩
      rw [hlt']
      obtain ⟨nm, F, S, tmo, st, f, su, lt0⟩ := b
      simp
      omega

lemma call_fail_fast {ε α : Type} (b : CircuitBreaker) (now : Int) (op : Except ε α)
    (hst : b.state = .opn)
    (ht : ∀ t, b.last_failure_time = some t → now - t < b.timeout) :
    call b now op = (.circuitOpen, b, false) := by
  have hcs : check_state b now = b := by
    unfold check_state
    by_cases htr : b.state = CircuitState.opn ∧ truthyTime b.last_failure_time
    · rw [if_pos htr]
      cases hlt : b.last_failure_time with
      | none => simp [truthyTime, hlt] at htr
      | some t0 =>
          have := ht t0 hlt
          rw [if_neg (by simp [hlt]; omega)]
    · rw [if_neg htr]
  unfold call
  rw [hcs, if_pos hst]

end Resilience

/-! ## Claim C6 — circuit breaker fail-fast -/

/-- C6, confirmed.  From a fresh breaker with failure threshold `F ≥ 1`,
after `F` consecutive failed calls (at instants `ts ++ [tl]`, all recorded
in the CLOSED state because the first `F - 1` leave the failure count
below the threshold), the breaker is OPEN with failure count `F` and
open-time `tl`; any call at an instant `now` with `now - tl < timeout`
fails fast with the `CircuitOpen` outcome, does not invoke the wrapped
operation, and leaves the breaker (state, counters, open-time) unchanged. -/
theorem c6_circuit_fail_fast {ε α : Type} (name : String) (F S : Nat)
    (timeout : Int) (ts : List Int) (tl now : Int) (op : Except ε α)
    (hF : 1 ≤ F) (hlen : ts.length + 1 = F) (hnow : now - tl < timeout) :
    (Resilience.afterFailures (Resilience.mkBreaker name F S timeout) (ts ++ [tl])).state
        = .opn
      ∧ (Resilience.afterFailures (Resilience.mkBreaker name F S timeout) (ts ++ [tl])).failures
          = F
      ∧ (Resilience.afterFailures (Resilience.mkBreaker name F S timeout) (ts ++ [tl])).last_failure_time
          = some tl
      ∧ Resilience.call
            (Resilience.afterFailures (Resilience.mkBreaker name F S timeout) (ts ++ [tl]))
            now op
          = (.circuitOpen,
             Resilience.afterFailures (Resilience.mkBreaker name F S timeout) (ts ++ [tl]),
             false) := by
  obtain ⟨lt, hpre⟩ := Resilience.afterFailures_closed ts
    (Resilience.mkBreaker name F S timeout) rfl (by simp [Resilience.mkBreaker]; omega)
  have hfinal : Resilience.afterFailures (Resilience.mkBreaker name F S timeout) (ts ++ [tl])
      = { Resilience.mkBreaker name F S timeout with
            state := .opn, failures := F, last_failure_time := some tl } := by
    rw [Resilience.afterFailures_append, hpre,
      Resilience.recordFailedCall_closed _ tl (by simp [Resilience.mkBreaker])]
    rw [if_pos (by simp [Resilience.mkBreaker]; omega)]
    simp [Resilience.mkBreaker]
    omega
  rw [hfinal]
  refine ⟨rfl, rfl, rfl, ?_⟩
  apply Resilience.call_fail_fast
  · rfl
  · intro t htl
    simp [Resilience.mkBreaker] at htl
    simpa [Resilience.mkBreaker, htl] using hnow

/-- C6, witness: threshold 2, failures at instants 5 and 7, timeout 60,
a call at instant 30 (elapsed 23 < 60). -/
theorem c6_circuit_fail_fast_witness :
    (1 ≤ 2 ∧ ([5] : List Int).length + 1 = 2 ∧ (30 : Int) - 7 < 60)
      ∧ ((Resilience.afterFailures (Resilience.mkBreaker "db" 2 2 60) ([5] ++ [7])).state
            = .opn
          ∧ (Resilience.afterFailures (Resilience.mkBreaker "db" 2 2 60) ([5] ++ [7])).failures
              = 2
          ∧ (Resilience.afterFailures (Resilience.mkBreaker "db" 2 2 60) ([5] ++ [7])).last_failure_time
              = some 7
          ∧ Resilience.call
                (Resilience.afterFailures (Resilience.mkBreaker "db" 2 2 60) ([5] ++ [7]))
                30 (Except.ok () : Except Unit Unit)
              = (.circuitOpen,
                 Resilience.afterFailures (Resilience.mkBreaker "db" 2 2 60) ([5] ++ [7]),
                 false)) :=
  ⟨by refine ⟨by decide, by decide, by decide⟩,
   c6_circuit_fail_fast "db" 2 2 60 [5] 7 30 (Except.ok () : Except Unit Unit)
     (by decide) (by decide) (by decide)⟩

/-! ## Helper lemma for the retry wrapper -/

namespace Resilience

lemma retryLoop_all_retryable {α : Type} (max_attempts : Nat) (es : Nat → List Char)
    (h3 : ∀ i, isRetryableName (es i) = true) :
    ∀ fuel attempt last_error inv sl, 1 ≤ fuel → attempt + fuel = max_attempts →
      retryLoop (α := α) max_attempts (fun i => .error (es i)) fuel attempt last_error inv sl
        = (.raised (es (max_attempts - 1)), inv + fuel, sl + (fuel - 1)) := by
  intro fuel
  induction fuel with
  | zero => intro attempt last_error inv sl h1 _; omega
  | succ k ih =>
      intro attempt last_error inv sl _ h2
      cases k with
      | zero =>
          have hatt : attempt = max_attempts - 1 := by omega
          subst hatt
          have hsr : should_retry max_attempts (max_attempts - 1 + 1)
              (es (max_attempts - 1)) = false := by
            unfold should_retry
            rw [if_pos (by omega)]
          show (if should_retry max_attempts (max_attempts - 1 + 1)
                (es (max_attempts - 1)) = true then
              retryLoop max_attempts (fun i => Except.error (es i)) 0
                (max_attempts - 1 + 1) (some (es (max_attempts - 1))) (inv + 1) (sl + 1)
            else ((.raised (es (max_attempts - 1)) : RetryResult α), inv + 1, sl)) = _
          rw [hsr]
          simp
      | succ k' =>
          have hsr : should_retry max_attempts (attempt + 1) (es attempt) = true := by
            unfold should_retry
            rw [if_neg (by omega)]
            exact h3 attempt
          have hrec := ih (attempt + 1) (some (es attempt)) (inv + 1) (sl + 1)
            (by omega) (by omega)
          show (if should_retry max_attempts (attempt + 1) (es attempt) = true then
              retryLoop max_attempts (fun i => Except.error (es i)) (k' + 1)
                (attempt + 1) (some (es attempt)) (inv + 1) (sl + 1)
            else ((.raised (es attempt) : RetryResult α), inv + 1, sl)) = _
          rw [if_pos hsr, hrec]
          simp only [Prod.mk.injEq]
          exact ⟨by simp, by omega, by omega⟩

end Resilience

/-! ## Claim C7 — retry attempt accounting -/

/-- C7, confirmed.  For `max_attempts ≥ 1`: (a) an operation that always
raises an error whose class name matches none of the retryable names is
invoked exactly once, no back-off sleep runs, and its error is re-raised;
(b) an operation that always raises retryable errors is invoked exactly
`max_attempts` times (with `max_attempts - 1` sleeps) and the error of the
last invocation is raised to the caller. -/
theorem c7_retry_attempts {α : Type} (max_attempts : Nat) (e : List Char)
    (es : Nat → List Char) (h1 : 1 ≤ max_attempts)
    (h2 : Resilience.isRetryableName e = false)
    (h3 : ∀ i, Resilience.isRetryableName (es i) = true) :
    Resilience.retryCall (α := α) max_attempts (fun _ => .error e)
        = (.raised e, 1, 0)
      ∧ Resilience.retryCall (α := α) max_attempts (fun i => .error (es i))
          = (.raised (es (max_attempts - 1)), max_attempts, max_attempts - 1) := by
  constructor
  · cases max_attempts with
    | zero => omega
    | succ m =>
        have hsr : Resilience.should_retry (m + 1) 1 e = false := by
          unfold Resilience.should_retry
          split
          · rfl
          · exact h2
        simp [Resilience.retryCall, Resilience.retryLoop, hsr]
  · have h := Resilience.retryLoop_all_retryable (α := α) max_attempts es h3
      max_attempts 0 none 0 0 h1 (by omega)
    simpa [Resilience.retryCall] using h

/-- C7, witness: three attempts; `ValueError` (not retryable) raises after
one invocation and no sleep; `TimeoutError` (retryable) raises after three
invocations and two sleeps. -/
theorem c7_retry_attempts_witness :
    (1 ≤ 3 ∧ Resilience.isRetryableName ("ValueError".toList) = false
       ∧ Resilience.isRetryableName ("TimeoutError".toList) = true)
      ∧ Resilience.retryCall (α := Unit) 3 (fun _ => .error ("ValueError".toList))
          = (.raised ("ValueError".toList), 1, 0)
      ∧ Resilience.retryCall (α := Unit) 3 (fun _ => .error ("TimeoutError".toList))
          = (.raised ("TimeoutError".toList), 3, 2) := by
  have hto : Resilience.isRetryableName ("TimeoutError".toList) = true := by decide
  refine ⟨⟨by decide, by decide, by decide⟩, ?_, ?_⟩
  · exact (c7_retry_attempts (α := Unit) 3 ("ValueError".toList)
      (fun _ => "TimeoutError".toList) (by decide) (by decide) (fun _ => hto)).1
  · exact (c7_retry_attempts (α := Unit) 3 ("ValueError".toList)
      (fun _ => "TimeoutError".toList) (by decide) (by decide) (fun _ => hto)).2

/-! ## Claim C9 — user-create conflict -/

/-- C9, counterexample.  `adminU` is the stored user `alice` (id `u1`,
email, password hash, role `admin`, API-key hash `K`).  Calling the
storage layer's `create_user` with the same username and a different user
id raises no Conflict at all: `INSERT OR REPLACE` deletes `alice`'s row
and inserts a fresh one with the new id, no email, no password hash, role
`user` and a `NULL` API-key hash — the stored record is not unchanged. -/
theorem c9_silent_replace_cex :
    Storage.create_user [Fixtures.adminU] "u2" "alice" none none "user"
      = [⟨"u2", "alice", none, none, "user", none⟩] := by
  decide

/-- C9, as amended: the HTTP user-create route (the only `create_user`
entry point that checks uniqueness) answers 409 Conflict and leaves the
users table unchanged whenever the username is already taken; the
underlying storage/service `create_user`, invoked directly, instead
silently replaces the existing record (see the counterexample). -/
theorem c9_route_conflict_amended (users : List Storage.UserRow)
    (fresh_id username : String) (email : Option String)
    (password : Option String) (role : String) (U : Storage.UserRow)
    (hU : U ∈ users) (hname : U.username = username) :
    Auth.route_create_user users fresh_id username email password role
      = (users, .error .conflict409) := by
  have hfind : users.find? (fun u => u.username = username) ≠ none := by
    intro hnone
    rw [List.find?_eq_none] at hnone
    exact hnone U hU (by simp [hname])
  obtain ⟨v, hv⟩ := Option.ne_none_iff_exists'.mp hfind
  simp [Auth.route_create_user, hv]

/-- C9, witness: the route called with username `alice` against the table
`[adminU]` answers 409 and leaves the table unchanged. -/
theorem c9_route_conflict_witness :
    (Fixtures.adminU ∈ [Fixtures.adminU] ∧ Fixtures.adminU.username = "alice")
      ∧ Auth.route_create_user [Fixtures.adminU] "u2" "alice" none none "user"
          = ([Fixtures.adminU], .error .conflict409) :=
  ⟨⟨by decide, by decide⟩,
   c9_route_conflict_amended [Fixtures.adminU] "u2" "alice" none none "user"
     Fixtures.adminU (by decide) (by decide)⟩

/-! ## Claim C10 — get_messages default limit -/

/-- C10, counterexample.  The claim's last clause — "only calls with a
POSITIVE limit take the `LIMIT ? OFFSET ?` branch and can return rows" —
fails for a negative limit: `-1` is truthy in Python, so the call takes
the `LIMIT ? OFFSET ?` branch and (SQLite treating a negative limit as
"no limit") returns the conversation's rows. -/
theorem c10_negative_limit_cex :
    Storage.getMessagesQuery (some (-1))
        = ["SELECT id, role, content, timestamp", "FROM messages",
           "WHERE conversation_id = ?", "ORDER BY timestamp ASC", "LIMIT ? OFFSET ?"]
      ∧ Storage.get_messages [Fixtures.msgRow1] "c" (some (-1)) 0 = .ok [Fixtures.msgRow1]
      ∧ ¬(0 < (-1 : Int)) := by
  refine ⟨by decide, by decide, by decide⟩

/-- Concrete evaluation: the bare-`OFFSET` tail is rejected, the
`LIMIT ? OFFSET ?` tail accepted. -/
lemma sqliteAccepts_offset_only :
    Storage.sqliteAccepts
      ["SELECT id, role, content, timestamp", "FROM messages",
       "WHERE conversation_id = ?", "ORDER BY timestamp ASC", "OFFSET ?"] = false := by
  decide

lemma sqliteAccepts_limit_offset :
    Storage.sqliteAccepts
      ["SELECT id, role, content, timestamp", "FROM messages",
       "WHERE conversation_id = ?", "ORDER BY timestamp ASC", "LIMIT ? OFFSET ?"] = true := by
  decide

/-- C10, as amended: with a falsy limit (`None`, the default, or `0`) the
built query ends in a bare `OFFSET ?` with no `LIMIT` clause, SQLite
rejects it, and the call raises instead of returning the conversation's
messages; every truthy (non-zero, including negative) limit takes the
`LIMIT ? OFFSET ?` branch and returns rows. -/
theorem c10_get_messages_amended (table : List Storage.MessageRow)
    (conversation_id : String) (limit : Option Int) (offset : Int) :
    (Storage.truthyLimit limit = false →
        Storage.getMessagesQuery limit
            = ["SELECT id, role, content, timestamp", "FROM messages",
               "WHERE conversation_id = ?", "ORDER BY timestamp ASC", "OFFSET ?"]
          ∧ Storage.get_messages table conversation_id limit offset
              = .error "syntax error: OFFSET without LIMIT")
      ∧ (Storage.truthyLimit limit = true →
          Storage.getMessagesQuery limit
              = ["SELECT id, role, content, timestamp", "FROM messages",
                 "WHERE conversation_id = ?", "ORDER BY timestamp ASC", "LIMIT ? OFFSET ?"]
            ∧ ∃ rows, Storage.get_messages table conversation_id limit offset = .ok rows) := by
  constructor
  · intro hfalsy
    have hq : Storage.getMessagesQuery limit
        = ["SELECT id, role, content, timestamp", "FROM messages",
           "WHERE conversation_id = ?", "ORDER BY timestamp ASC", "OFFSET ?"] := by
      unfold Storage.getMessagesQuery
      rw [hfalsy]
      rfl
    refine ⟨hq, ?_⟩
    unfold Storage.get_messages
    rw [hq, sqliteAccepts_offset_only]
    rfl
  · intro htruthy
    have hq : Storage.getMessagesQuery limit
        = ["SELECT id, role, content, timestamp", "FROM messages",
           "WHERE conversation_id = ?", "ORDER BY timestamp ASC", "LIMIT ? OFFSET ?"] := by
      unfold Storage.getMessagesQuery
      rw [htruthy]
      rfl
    refine ⟨hq, ?_⟩
    cases hl : limit with
    | none => rw [hl] at htruthy; simp [Storage.truthyLimit] at htruthy
    | some n =>
        subst hl
        refine ⟨Storage.applyLimitOffset n offset
          (Storage.sortByTimestamp
            (table.filter (fun r => r.conversation_id = conversation_id))), ?_⟩
        unfold Storage.get_messages
        rw [hq, sqliteAccepts_limit_offset]
        rfl

/-- C10, witness: the default `limit = None` raises the OFFSET-without-
LIMIT error instead of returning the stored message. -/
theorem c10_get_messages_witness :
    Storage.truthyLimit none = false
      ∧ Storage.get_messages [Fixtures.msgRow1] "c" none 0
          = .error "syntax error: OFFSET without LIMIT" :=
  ⟨rfl, ((c10_get_messages_amended [Fixtures.msgRow1] "c" none 0).1 rfl).2⟩

/-! ## Helper lemma for the API-key lookup -/

namespace Storage

lemma keyRowLive_eq_true (h : String) (now : Int) (ak : ApiKeyRow) :
    keyRowLive h now ak = true
      ↔ ak.key_hash = h ∧ ak.revoked_at = none
          ∧ (ak.expires_at = none ∨ ∃ e, ak.expires_at = some e ∧ now < e) := by
  unfold keyRowLive
  cases hx : ak.expires_at with
  | none => simp
  | some e => simp [hx, and_assoc]

end Storage

/-! ## Claim C1 — API-key validity on lookup -/

/-- C1, counterexample.  The database holds a user whose legacy
`users.api_key_hash` column equals the presented hash `H`, and an
`api_keys` row for the same hash that is REVOKED (`revoked_at = 100`).
The claim says the lookup honours revocation over both paths and returns
no user; the code's first (legacy) query has no revocation or expiry
condition, matches, and returns the user. -/
theorem c1_legacy_shadows_revoked_cex :
    (Fixtures.legacyU.api_key_hash = some "H"
        ∧ Fixtures.revokedK.key_hash = "H"
        ∧ Fixtures.revokedK.revoked_at ≠ none)
      ∧ Storage.get_user_by_api_key_hash ⟨[Fixtures.legacyU], [Fixtures.revokedK]⟩ "H" 200
          = some ⟨"u1", "alice", none, "user"⟩ := by
  refine ⟨⟨by decide, by decide, by decide⟩, by decide⟩

/-- C1, as amended: revocation and expiry are honoured on the `api_keys`
path only.  For every hash `h` that does NOT appear in any user's legacy
`api_key_hash` column, the lookup returns a user exactly when some
`api_keys` row carries `h`, is not revoked, is unexpired (no expiry or
expiry > now), and belongs to an existing user; a hash present in the
legacy column is returned unconditionally and shadows the validity checks
(see the counterexample). -/
theorem c1_api_key_validity_amended (db : Storage.AuthDB) (h : String) (now : Int)
    (hleg : ∀ u ∈ db.users, u.api_key_hash ≠ some h) :
    (Storage.get_user_by_api_key_hash db h now).isSome = true
      ↔ ∃ u ∈ db.users, ∃ ak ∈ db.api_keys,
          ak.key_hash = h ∧ ak.revoked_at = none
            ∧ (ak.expires_at = none ∨ ∃ e, ak.expires_at = some e ∧ now < e)
            ∧ ak.user_id = u.id := by
  have h1 : db.users.find? (fun u => u.api_key_hash = some h) = none := by
    rw [List.find?_eq_none]
    intro u hu
    simpa using hleg u hu
  unfold Storage.get_user_by_api_key_hash
  rw [h1]
  have h2 : ∀ o : Option Storage.UserRow,
      (match o with
        | some u => some (⟨u.id, u.username, u.email, u.role⟩ : Storage.UserOut)
        | none => none).isSome = o.isSome := by
    intro o
    cases o <;> rfl
  rw [h2]
  rw [List.find?_isSome]
  constructor
  · rintro ⟨u, hu, hpred⟩
    rw [List.any_eq_true] at hpred
    obtain ⟨ak, hak, hcond⟩ := hpred
    rw [Bool.and_eq_true, Storage.keyRowLive_eq_true] at hcond
    obtain ⟨⟨hkey, hrev, hexp⟩, huid⟩ := hcond
    exact ⟨u, hu, ak, hak, hkey, hrev, hexp, by simpa using huid⟩
  · rintro ⟨u, hu, ak, hak, hkey, hrev, hexp, huid⟩
    refine ⟨u, hu, ?_⟩
    rw [List.any_eq_true]
    refine ⟨ak, hak, ?_⟩
    rw [Bool.and_eq_true, Storage.keyRowLive_eq_true]
    exact ⟨⟨hkey, hrev, hexp⟩, by simpa using huid⟩

/-- C1, witness: a live key (`expires_at = 10 > now = 5`, not revoked) for
an existing user whose legacy column is empty authenticates. -/
theorem c1_api_key_validity_witness :
    (∀ u ∈ [Fixtures.plainU], u.api_key_hash ≠ some "H")
      ∧ (Storage.get_user_by_api_key_hash ⟨[Fixtures.plainU], [Fixtures.liveK]⟩ "H" 5).isSome
          = true := by
  refine ⟨by decide, ?_⟩
  refine (c1_api_key_validity_amended ⟨[Fixtures.plainU], [Fixtures.liveK]⟩ "H" 5
    (by decide)).mpr ?_
  refine ⟨Fixtures.plainU, by simp, Fixtures.liveK, by simp, by decide, by decide,
    Or.inr ⟨10, by decide, by decide⟩, by decide⟩

/-! ## Helper lemmas for the migration runner -/

namespace Migrations

lemma mem_range_one (v n : Nat) : v ∈ List.range' 1 n ↔ 1 ≤ v ∧ v ≤ n := by
  rw [List.mem_range']
  constructor
  · rintro ⟨i, hi, rfl⟩; omega
  · rintro ⟨h1, h2⟩; exact ⟨v - 1, by omega, by omega⟩

lemma range_one_concat (n : Nat) :
    List.range' 1 (n + 1) = List.range' 1 n ++ [n + 1] := by
  rw [List.range'_concat]
  congr 1
  simp
  omega

lemma foldl_max_range (n : Nat) : (List.range' 1 n).foldl max 0 = n := by
  induction n with
  | zero => rfl
  | succ k ih =>
      rw [range_one_concat, List.foldl_append, ih]
      simp [Nat.max_def]

lemma get_current_version_range (n : Nat) :
    get_current_version (List.range' 1 n) = if n = 0 then none else some n := by
  unfold get_current_version
  rw [foldl_max_range]

/-- Registered migrations whose versions all exceed the target are all
skipped, leaving the table untouched and raising nothing. -/
lemma migrateUpGo_gt (applied0 : List Nat) (target : Nat) :
    ∀ (migs : List Migration) (cur : Option Nat) (db : List Nat),
      (∀ mg ∈ migs, target < mg.version) →
      migrateUpGo applied0 target migs cur db = (db, none) := by
  intro migs
  induction migs with
  | nil => intro cur db _; rfl
  | cons mg rest ih =>
      intro cur db hall
      have h1 : ¬mg.version ≤ target := by
        have := hall mg (by simp)
        omega
      simp only [migrateUpGo]
      rw [if_neg h1]
      exact ih cur db (fun m hm => hall m (by simp [hm]))

/-- The "apply" phase of `migrate_up`: starting from table `1..c` with
`n ≤ c` already-applied rows read at loop entry, processing registered
migrations with consecutive versions `c+1, c+2, ...` extends the table to
some dense prefix `1..m` with `c ≤ m ≤ c + L` (shorter on an SQL failure
or a lower target), never raising the gap error. -/
lemma migrateUpGo_apply (n target : Nat) :
    ∀ (migs : List Migration) (c L : Nat),
      migs.map Migration.version = List.range' (c + 1) L →
      n ≤ c →
      ∃ m, c ≤ m ∧ m ≤ c + L ∧
        (migrateUpGo (List.range' 1 n) target migs
            (if c = 0 then none else some c) (List.range' 1 c)).1 = List.range' 1 m := by
  intro migs
  induction migs with
  | nil => intro c L _ _; exact ⟨c, le_refl c, by omega, rfl⟩
  | cons mg rest ih =>
      intro c L hmap hnc
      cases L with
      | zero => simp at hmap
      | succ L' =>
          rw [List.range'_succ] at hmap
          have hv : mg.version = c + 1 := by
            have := congrArg List.head? hmap
            simpa using this
          have hrest : rest.map Migration.version = List.range' (c + 2) L' := by
            have := congrArg List.tail hmap
            simpa using this
          by_cases htgt : mg.version ≤ target
          · simp only [migrateUpGo]
            rw [if_pos htgt]
            have hnot : ¬mg.version ∈ List.range' 1 n := by
              rw [hv, mem_range_one]
              omega
            rw [if_neg hnot]
            split
            · next c' hc' =>
                have hcc : c' = c ∧ c ≠ 0 := by
                  by_cases hc0 : c = 0
                  · rw [if_pos hc0] at hc'; cases hc'
                  · rw [if_neg hc0] at hc'
                    exact ⟨(Option.some.injEq _ _ ▸ hc').symm, hc0⟩
                rw [if_neg (by rw [hv, hcc.1]; omega)]
                by_cases hup : mg.upOk = true
                · rw [if_pos hup]
                  have hdb : List.range' 1 c ++ [mg.version] = List.range' 1 (c + 1) := by
                    rw [hv, ← range_one_concat]
                  have hcur : (some mg.version)
                      = if c + 1 = 0 then none else some (c + 1) := by
                    rw [hv, if_neg (by omega)]
                  rw [hdb, hcur]
                  obtain ⟨m, h1, h2, heq⟩ := ih (c + 1) L' hrest (by omega)
                  exact ⟨m, by omega, by omega, heq⟩
                · rw [if_neg hup]
                  exact ⟨c, le_refl c, by omega, rfl⟩
            · next hc' =>
                by_cases hup : mg.upOk = true
                · rw [if_pos hup]
                  have hdb : List.range' 1 c ++ [mg.version] = List.range' 1 (c + 1) := by
                    rw [hv, ← range_one_concat]
                  have hcur : (some mg.version)
                      = if c + 1 = 0 then none else some (c + 1) := by
                    rw [hv, if_neg (by omega)]
                  rw [hdb, hcur]
                  obtain ⟨m, h1, h2, heq⟩ := ih (c + 1) L' hrest (by omega)
                  exact ⟨m, by omega, by omega, heq⟩
                · rw [if_neg hup]
                  exact ⟨c, le_refl c, by omega, rfl⟩
          · have hall : ∀ mg' ∈ mg :: rest, target < mg'.version := by
              intro mg' hmg'
              rcases List.mem_cons.mp hmg' with rfl | hmg'
              · omega
              · have hmem : mg'.version ∈ List.range' (c + 2) L' := by
                  rw [← hrest]
                  exact List.mem_map_of_mem Migration.version hmg'
                rw [List.mem_range'] at hmem
                obtain ⟨i, _, hi⟩ := hmem
                omega
            rw [migrateUpGo_gt _ _ _ _ _ hall]
            exact ⟨c, le_refl c, by omega, rfl⟩

/-- The "skip" phase of `migrate_up`: versions `a+1, ...` with `a ≤ n` are
already applied (or switch to the apply phase at `a = n`). -/
lemma migrateUpGo_skip (n target : Nat) :
    ∀ (migs : List Migration) (a L : Nat),
      migs.map Migration.version = List.range' (a + 1) L →
      a ≤ n →
      ∃ m, n ≤ m ∧ m ≤ max n (a + L) ∧
        (migrateUpGo (List.range' 1 n) target migs
            (if n = 0 then none else some n) (List.range' 1 n)).1 = List.range' 1 m := by
  intro migs
  induction migs with
  | nil => intro a L _ _; exact ⟨n, le_refl n, by omega, rfl⟩
  | cons mg rest ih =>
      intro a L hmap han
      by_cases hlt : a < n
      · cases L with
        | zero => simp at hmap
        | succ L' =>
            rw [List.range'_succ] at hmap
            have hv : mg.version = a + 1 := by
              have := congrArg List.head? hmap
              simpa using this
            have hrest : rest.map Migration.version = List.range' (a + 2) L' := by
              have := congrArg List.tail hmap
              simpa using this
            by_cases htgt : mg.version ≤ target
            · simp only [migrateUpGo]
              rw [if_pos htgt]
              have hmem : mg.version ∈ List.range' 1 n := by
                rw [hv, mem_range_one]
                omega
              rw [if_pos hmem]
              obtain ⟨m, h1, h2, heq⟩ := ih (a + 1) L' hrest (by omega)
              exact ⟨m, h1, by omega, heq⟩
            · simp only [migrateUpGo]
              rw [if_neg htgt]
              have hall : ∀ mg' ∈ rest, target < mg'.version := by
                intro mg' hmg'
                have hmem : mg'.version ∈ List.range' (a + 2) L' := by
                  rw [← hrest]
                  exact List.mem_map_of_mem Migration.version hmg'
                rw [List.mem_range'] at hmem
                obtain ⟨i, _, hi⟩ := hmem
                omega
              rw [migrateUpGo_gt _ _ _ _ _ hall]
              exact ⟨n, le_refl n, by omega, rfl⟩
      · have han' : a = n := by omega
        obtain ⟨m, h1, h2, heq⟩ := migrateUpGo_apply n target (mg :: rest) n L
          (han' ▸ hmap) (le_refl n)
        exact ⟨m, h1, by omega, heq⟩

lemma filter_ne_top (c : Nat) :
    (List.range' 1 (c + 1)).filter (fun v => v ≠ c + 1) = List.range' 1 c := by
  rw [range_one_concat, List.filter_append]
  have h1 : (List.range' 1 c).filter (fun v => v ≠ c + 1) = List.range' 1 c := by
    rw [List.filter_eq_self]
    intro v hv
    rw [mem_range_one] at hv
    simp
    omega
  have h2 : ([c + 1] : List Nat).filter (fun v => v ≠ c + 1) = [] := by
    simp
  rw [h1, h2, List.append_nil]

/-- Rolling back registered migrations with the descending consecutive
versions `c, c-1, ..., t+1` from the dense table `1..c` leaves a dense
prefix `1..m` with `m ≤ c` (equal to `1..t` when every down-SQL runs,
longer if one fails and the loop stops). -/
lemma migrateDownGo_dense :
    ∀ (ws : List Migration) (c t : Nat),
      ws.map Migration.version = (List.range' (t + 1) (c - t)).reverse →
      ∃ m, m ≤ c ∧ (migrateDownGo ws (List.range' 1 c)).1 = List.range' 1 m := by
  intro ws
  induction ws with
  | nil => intro c t _; exact ⟨c, le_refl c, rfl⟩
  | cons w rest ih =>
      intro c t hmap
      have hct : t < c := by
        by_contra hle
        have : c - t = 0 := by omega
        rw [this] at hmap
        simp at hmap
      have hsplit : List.range' (t + 1) (c - t)
          = List.range' (t + 1) (c - t - 1) ++ [c] := by
        have h1 : c - t = (c - t - 1) + 1 := by omega
        rw [h1, List.range'_concat]
        congr 1
        simp
        omega
      rw [hsplit, List.reverse_append] at hmap
      simp only [List.reverse_cons, List.reverse_nil, List.nil_append,
        List.singleton_append, List.map_cons] at hmap
      have hv : w.version = c := by
        have := congrArg List.head? hmap
        simpa using this
      have hrest : rest.map Migration.version
          = (List.range' (t + 1) ((c - 1) - t)).reverse := by
        have := congrArg List.tail hmap
        simp at this
        rw [this]
        congr 2
        omega
      simp only [migrateDownGo]
      by_cases hdown : w.downOk = true
      · rw [if_pos hdown]
        have hfilter : (List.range' 1 c).filter (fun v => v ≠ w.version)
            = List.range' 1 (c - 1) := by
          have h1 : c = (c - 1) + 1 := by omega
          rw [hv, h1, filter_ne_top]
          congr 1
        rw [hfilter]
        obtain ⟨m, h1, heq⟩ := ih (c - 1) t hrest
        exact ⟨m, by omega, heq⟩
      · rw [if_neg hdown]
        exact ⟨c, le_refl c, rfl⟩

lemma map_version_filter_window (t c : Nat) (migs : List Migration) :
    (migs.filter (fun mg => decide (t < mg.version) && decide (mg.version ≤ c))).map
        Migration.version
      = (migs.map Migration.version).filter (fun v => decide (t < v) && decide (v ≤ c)) := by
  induction migs with
  | nil => rfl
  | cons mg rest ih =>
      by_cases hp : (decide (t < mg.version) && decide (mg.version ≤ c)) = true
      · simp only [List.filter_cons, List.map_cons, hp, if_true]
        simp [hp, ih]
      · simp only [List.filter_cons, List.map_cons]
        simp [hp, ih]

lemma filter_range_window (t n : Nat) :
    ∀ K : Nat,
      (List.range' 1 K).filter (fun v => decide (t < v) && decide (v ≤ n))
        = List.range' (t + 1) (min K n - t) := by
  intro K
  induction K with
  | zero => simp
  | succ k ih =>
      rw [range_one_concat, List.filter_append, ih]
      by_cases h1 : t < k + 1 ∧ k + 1 ≤ n
      · have h2 : ([k + 1] : List Nat).filter (fun v => decide (t < v) && decide (v ≤ n))
            = [k + 1] := by
          simp
          omega
        rw [h2]
        have h3 : min k n = k := by omega
        have h4 : min (k + 1) n = k + 1 := by omega
        rw [h3, h4]
        have h5 : (k - t) + 1 = k + 1 - t := by omega
        rw [← h5, List.range'_concat]
        congr 1
        simp
        omega
      · have h2 : ([k + 1] : List Nat).filter (fun v => decide (t < v) && decide (v ≤ n))
            = [] := by
          simp
          omega
        rw [h2, List.append_nil]
        congr 1
        omega

end Migrations

/-! ## Claim C8 — dense migration versions -/

/-- C8, counterexample.  A fresh database (`schema_migrations` empty) and a
single registered migration of version 5: `get_current_version` returns
`None`, the gap check `current_version is not None and version != current+1`
is skipped, and `migrate_up` succeeds, leaving `schema_migrations = {5}` —
no gap error is raised and the applied set is not a dense prefix `1..N`
(it contains 5 but not 1). -/
theorem c8_fresh_gap_cex :
    Migrations.migrate_up [⟨5, "add_tables", true, true⟩] [] none = ([5], none)
      ∧ (5 ∈ ([5] : List Nat) ∧ 1 ∉ ([5] : List Nat)) := by
  refine ⟨by decide, by decide, by decide⟩

/-- C8, as amended: the gap check only fires when some migration is already
applied; on a fresh database the first registered migration is applied
unconditionally, whatever its version.  Provided the registered versions
are exactly the dense range `1..K`, the dense-prefix invariant holds: from
any applied set `1..n` (`n ≤ K`), both `migrate_up` (any target, including
the truthiness-mediated default, and whether or not some up-SQL fails) and
`migrate_down` (any target, whether or not some down-SQL fails) leave the
applied set a dense prefix `1..m` with `m ≤ K` — so every sequence of
calls starting from the empty database keeps `schema_migrations` a dense
prefix of `1..K`. -/
theorem c8_dense_prefix_amended (migrations : List Migrations.Migration)
    (K n : Nat) (target_up : Option Nat) (target_down : Nat)
    (hreg : migrations.map Migrations.Migration.version = List.range' 1 K)
    (hn : n ≤ K) :
    (∃ m, m ≤ K
        ∧ (Migrations.migrate_up migrations (List.range' 1 n) target_up).1
            = List.range' 1 m)
      ∧ (∃ m, m ≤ K
          ∧ (Migrations.migrate_down migrations (List.range' 1 n) target_down).1
              = List.range' 1 m) := by
  constructor
  · unfold Migrations.migrate_up
    rw [Migrations.get_current_version_range]
    obtain ⟨m, h1, h2, heq⟩ := Migrations.migrateUpGo_skip n
      (match target_up with
        | none => (migrations.map Migrations.Migration.version).foldl max 0
        | some t =>
            if t = 0 then (migrations.map Migrations.Migration.version).foldl max 0 else t)
      migrations 0 K hreg (by omega)
    refine ⟨m, ?_, heq⟩
    have hK : (migrations.map Migrations.Migration.version).foldl max 0 = K := by
      rw [hreg, Migrations.foldl_max_range]
    omega
  · unfold Migrations.migrate_down
    rw [Migrations.get_current_version_range]
    by_cases hn0 : n = 0
    · rw [if_pos hn0]
      exact ⟨0, by omega, by rw [hn0]⟩
    · rw [if_neg hn0]
      have hws : (migrations.reverse.filter
            (fun mg => decide (target_down < mg.version) && decide (mg.version ≤ n))).map
              Migrations.Migration.version
          = (List.range' (target_down + 1) (n - target_down)).reverse := by
        rw [List.filter_reverse, List.map_reverse, Migrations.map_version_filter_window,
          hreg, Migrations.filter_range_window]
        congr 2
        omega
      obtain ⟨m, h1, heq⟩ := Migrations.migrateDownGo_dense _ n target_down hws
      exact ⟨m, by omega, heq⟩

/-- C8, witness: three registered migrations `1..3`, applied set `{1}`,
default up-target and down-target 0. -/
theorem c8_dense_prefix_witness :
    (([⟨1, "m", true, true⟩, ⟨2, "m", true, true⟩,
        ⟨3, "m", true, true⟩] : List Migrations.Migration).map
          Migrations.Migration.version = List.range' 1 3 ∧ 1 ≤ 3)
      ∧ ((∃ m, m ≤ 3
            ∧ (Migrations.migrate_up
                [⟨1, "m", true, true⟩, ⟨2, "m", true, true⟩, ⟨3, "m", true, true⟩]
                (List.range' 1 1) none).1 = List.range' 1 m)
          ∧ (∃ m, m ≤ 3
              ∧ (Migrations.migrate_down
                  [⟨1, "m", true, true⟩, ⟨2, "m", true, true⟩, ⟨3, "m", true, true⟩]
                  (List.range' 1 1) 0).1 = List.range' 1 m)) :=
  ⟨⟨by decide, by decide⟩,
   c8_dense_prefix_amended
     [⟨1, "m", true, true⟩, ⟨2, "m", true, true⟩, ⟨3, "m", true, true⟩]
     3 1 none 0 (by decide) (by decide)⟩

end UnifiedAI
